import Mathlib

/-!
# Verification development for the robotoc hybrid optimal-control solver

Shallow embedding of the parts of the robotoc code base that the checked
specification sentences talk about, together with theorems settling each
claim.  Machine `double` arithmetic is modelled over `ℚ` (exact field
arithmetic); `std::sqrt` is modelled by `Real.sqrt` applied to the cast of
the exactly-computed radicand.
-/

namespace Robotoc

/-! ## Rotation utilities (`include/robotoc/utils/rotation.hpp`) -/

/-- `robotoc::rotation::ProjectionAxis`. -/
inductive ProjectionAxis where
  | X
  | Y
  | Z
deriving DecidableEq

/-- `robotoc::rotation::ProjectRotationMatrix` from
`include/robotoc/utils/rotation.hpp`: the whole matrix is divided by the
`norm` scalar computed from two entries, then the row and the column of the
projection axis are overwritten with the unit-vector entries. -/
def ProjectRotationMatrix (R : Fin 3 → Fin 3 → ℚ) (axis : ProjectionAxis) :
    Fin 3 → Fin 3 → ℚ :=
  match axis with
  | ProjectionAxis.X =>
    -- const double norm = R(1,1)*R(1,1) + R(1,2) + R(1,2); R.array() /= norm;
    let norm := R 1 1 * R 1 1 + R 1 2 + R 1 2
    fun i j =>
      if i = 0 ∧ j = 0 then 1
      else if i = 0 ∨ j = 0 then 0
      else R i j / norm
  | ProjectionAxis.Y =>
    -- const double norm = R(0,0)*R(0,0) + R(0,2) + R(0,2); R.array() /= norm;
    let norm := R 0 0 * R 0 0 + R 0 2 + R 0 2
    fun i j =>
      if i = 1 ∧ j = 1 then 1
      else if i = 1 ∨ j = 1 then 0
      else R i j / norm
  | ProjectionAxis.Z =>
    -- const double norm = R(0,0)*R(0,0) + R(0,1) + R(0,1); R.array() /= norm;
    let norm := R 0 0 * R 0 0 + R 0 1 + R 0 1
    fun i j =>
      if i = 2 ∧ j = 2 then 1
      else if i = 2 ∨ j = 2 then 0
      else R i j / norm

/-! ## Constructor argument validation (`src/riccati/riccati_recursion.cpp`,
`src/mpc/raibert_heuristic.cpp`)

Both constructors validate their arguments inside a `try` block, `catch` the
thrown `std::out_of_range`, print `e.what()` to `std::cerr` and then call
`std::exit(EXIT_FAILURE)`.  The outcome of running a constructor is hence
either a constructed object or a process termination carrying the printed
diagnostic; nothing is ever propagated to the caller. -/

/-- Outcome of running one of the validating constructors: either the
constructed object, or `std::exit(EXIT_FAILURE)` reached after printing the
given diagnostic message to `std::cerr`. -/
inductive CtorOutcome (α : Type) where
  | ok : α → CtorOutcome α
  | exitFailure : String → CtorOutcome α
deriving DecidableEq

/-- `true` iff the constructor run ended in `std::exit(EXIT_FAILURE)`. -/
def CtorOutcome.isExitFailure {α : Type} : CtorOutcome α → Bool
  | CtorOutcome.ok _ => false
  | CtorOutcome.exitFailure _ => true

/-- The member data of `RiccatiRecursion` relevant to construction
(`nthreads_`, `N_`, `N_all_`). -/
structure RiccatiRecursionData where
  nthreads : ℤ
  N : ℤ
  N_all : ℤ
deriving DecidableEq

/-- `RiccatiRecursion::RiccatiRecursion(robot, N, max_num_impulse, nthreads)`
from `src/riccati/riccati_recursion.cpp`: the checks run in order; the first
failing check throws, the `catch` block prints and calls
`std::exit(EXIT_FAILURE)`. -/
def RiccatiRecursion.construct (N max_num_impulse nthreads : ℤ) :
    CtorOutcome RiccatiRecursionData :=
  if N ≤ 0 then
    CtorOutcome.exitFailure "invalid value: N must be positive!"
  else if max_num_impulse < 0 then
    CtorOutcome.exitFailure "invalid value: max_num_impulse must be non-negative!"
  else if nthreads ≤ 0 then
    CtorOutcome.exitFailure "invalid value: nthreads must be positive!"
  else
    CtorOutcome.ok { nthreads := nthreads, N := N, N_all := N + 1 }

/-- The member data of `RaibertHeuristic` relevant to construction. -/
structure RaibertHeuristicData where
  period : ℚ
  gain : ℚ
deriving DecidableEq

/-- `RaibertHeuristic::RaibertHeuristic(period, gain)` from
`src/mpc/raibert_heuristic.cpp`: the checks run in order; the first failing
check throws, the `catch` block prints and calls `std::exit(EXIT_FAILURE)`. -/
def RaibertHeuristic.construct (period gain : ℚ) :
    CtorOutcome RaibertHeuristicData :=
  if period ≤ 0 then
    CtorOutcome.exitFailure "invalid argument: period must be positive!"
  else if gain ≤ 0 then
    CtorOutcome.exitFailure "invalid argument: gain must be positive!"
  else if gain > 1 then
    CtorOutcome.exitFailure "invalid argument: gain must be less than 1.0!"
  else
    CtorOutcome.ok { period := period, gain := gain }

/-! ## KKT error norms (`include/idocp/ocp/kkt_residual.hpp`,
`include/idocp/unocp/unocp_solver.hpp`) -/

/-- `idocp::KKTResidual::squaredKKTErrorNorm` from
`include/idocp/ocp/kkt_residual.hpp`: the squared Euclidean norm
(`squaredNorm()`) of the first `dimKKT` entries of the stacked residual
vector. -/
def KKTResidual.squaredKKTErrorNorm (kkt_residual : List ℚ) (dimKKT : ℕ) : ℚ :=
  ((kkt_residual.take dimKKT).map (fun x => x * x)).sum

/-- The l-infinity (max-absolute-entry) norm of a stacked residual vector. -/
def linfNorm (v : List ℚ) : ℚ := (v.map (fun x => |x|)).foldl max 0

end Robotoc

/-- C9: the re-normalization divisor of `ProjectRotationMatrix` adds rather
than squares two entries: for axis X the divisor is
`R(1,1)*R(1,1) + R(1,2) + R(1,2)` (analogously for axes Y and Z), every
entry outside the axis row/column is divided by it, and the row and column
of the projection axis are overwritten with unit-vector entries. -/
theorem C9_project_rotation_matrix_divisor (R : Fin 3 → Fin 3 → ℚ) :
    (Robotoc.ProjectRotationMatrix R Robotoc.ProjectionAxis.X 1 1
        = R 1 1 / (R 1 1 * R 1 1 + R 1 2 + R 1 2)
      ∧ Robotoc.ProjectRotationMatrix R Robotoc.ProjectionAxis.X 1 2
        = R 1 2 / (R 1 1 * R 1 1 + R 1 2 + R 1 2)
      ∧ Robotoc.ProjectRotationMatrix R Robotoc.ProjectionAxis.X 2 1
        = R 2 1 / (R 1 1 * R 1 1 + R 1 2 + R 1 2)
      ∧ Robotoc.ProjectRotationMatrix R Robotoc.ProjectionAxis.X 2 2
        = R 2 2 / (R 1 1 * R 1 1 + R 1 2 + R 1 2)
      ∧ (∀ j, Robotoc.ProjectRotationMatrix R Robotoc.ProjectionAxis.X 0 j
          = if j = 0 then 1 else 0)
      ∧ (∀ i, Robotoc.ProjectRotationMatrix R Robotoc.ProjectionAxis.X i 0
          = if i = 0 then 1 else 0))
    ∧ (Robotoc.ProjectRotationMatrix R Robotoc.ProjectionAxis.Y 0 0
        = R 0 0 / (R 0 0 * R 0 0 + R 0 2 + R 0 2)
      ∧ Robotoc.ProjectRotationMatrix R Robotoc.ProjectionAxis.Y 2 2
        = R 2 2 / (R 0 0 * R 0 0 + R 0 2 + R 0 2)
      ∧ (∀ j, Robotoc.ProjectRotationMatrix R Robotoc.ProjectionAxis.Y 1 j
          = if j = 1 then 1 else 0)
      ∧ (∀ i, Robotoc.ProjectRotationMatrix R Robotoc.ProjectionAxis.Y i 1
          = if i = 1 then 1 else 0))
    ∧ (Robotoc.ProjectRotationMatrix R Robotoc.ProjectionAxis.Z 0 0
        = R 0 0 / (R 0 0 * R 0 0 + R 0 1 + R 0 1)
      ∧ Robotoc.ProjectRotationMatrix R Robotoc.ProjectionAxis.Z 1 1
        = R 1 1 / (R 0 0 * R 0 0 + R 0 1 + R 0 1)
      ∧ (∀ j, Robotoc.ProjectRotationMatrix R Robotoc.ProjectionAxis.Z 2 j
          = if j = 2 then 1 else 0)
      ∧ (∀ i, Robotoc.ProjectRotationMatrix R Robotoc.ProjectionAxis.Z i 2
          = if i = 2 then 1 else 0)) := by
  refine ⟨⟨rfl, rfl, rfl, rfl, ?_, ?_⟩, ⟨rfl, rfl, ?_, ?_⟩, ⟨rfl, rfl, ?_, ?_⟩⟩ <;>
    intro k <;> fin_cases k <;> rfl

/-- Helper: casting a rational sum of squares to the reals turns it into the
real sum of squared casts. -/
theorem sum_sq_cast (l : List ℚ) :
    (((l.map (fun x => x * x)).sum : ℚ) : ℝ) = (l.map (fun x : ℚ => ((x : ℝ)) ^ 2)).sum := by
  induction l with
  | nil => simp
  | cons a t ih =>
      have hs : ((a :: t).map (fun x : ℚ => ((x : ℝ)) ^ 2)).sum
          = ((a : ℝ)) ^ 2 + (t.map (fun x : ℚ => ((x : ℝ)) ^ 2)).sum := by
        simp
      rw [List.map_cons, List.sum_cons, Rat.cast_add, Rat.cast_mul, ih, hs, sq]

/-- C3 counterexample: on the stacked residual `(3, 4)` the measure built
from `squaredKKTErrorNorm` (whose square root is the documented l2-norm
returned by `UnOCPSolver::KKTError`) is `25`, with square root `5`, while
the l-infinity norm is `4`; so the measure the solver compares against the
tolerance is not the l-infinity norm. -/
theorem C3_counterexample_kkt_error_not_linf :
    Robotoc.KKTResidual.squaredKKTErrorNorm [3, 4] 2 = 25
    ∧ Real.sqrt ((Robotoc.KKTResidual.squaredKKTErrorNorm [3, 4] 2 : ℚ) : ℝ) = 5
    ∧ Robotoc.linfNorm [3, 4] = 4
    ∧ Real.sqrt ((Robotoc.KKTResidual.squaredKKTErrorNorm [3, 4] 2 : ℚ) : ℝ)
        ≠ ((Robotoc.linfNorm [3, 4] : ℚ) : ℝ)
    ∧ Robotoc.KKTResidual.squaredKKTErrorNorm [3, 4] 2 ≠ Robotoc.linfNorm [3, 4] := by
  have h25 : Robotoc.KKTResidual.squaredKKTErrorNorm [3, 4] 2 = 25 := by
    norm_num [Robotoc.KKTResidual.squaredKKTErrorNorm]
  have hlinf : Robotoc.linfNorm [3, 4] = 4 := by
    norm_num [Robotoc.linfNorm]
  have hsqrt : Real.sqrt ((Robotoc.KKTResidual.squaredKKTErrorNorm [3, 4] 2 : ℚ) : ℝ) = 5 := by
    rw [h25]
    rw [show (((25 : ℚ)) : ℝ) = (5 : ℝ) ^ 2 by norm_num]
    exact Real.sqrt_sq (by norm_num)
  refine ⟨h25, hsqrt, hlinf, ?_, ?_⟩
  · rw [hsqrt, hlinf]; norm_num
  · rw [h25, hlinf]; norm_num

/-- C3 amended: the KKT error measure the solver compares against the
tolerance is the l2 norm of the stacked KKT residual — the square root of
the sum of squared entries of the first `dimKKT` components — not the
l-infinity norm. -/
theorem C3_amended_kkt_error_is_l2 (r : List ℚ) (dimKKT : ℕ) :
    Real.sqrt ((Robotoc.KKTResidual.squaredKKTErrorNorm r dimKKT : ℚ) : ℝ)
      = Real.sqrt (((r.take dimKKT).map (fun x : ℚ => ((x : ℝ)) ^ 2)).sum) := by
  unfold Robotoc.KKTResidual.squaredKKTErrorNorm
  rw [sum_sq_cast]

/-- C4 counterexample: constructing `RiccatiRecursion` with the invalid
grid count `N = 0` (and `RaibertHeuristic` with the invalid `period = 0`)
ends in `std::exit(EXIT_FAILURE)`: the error is a process termination and
does not surface to the caller. -/
theorem C4_counterexample_ctor_exits_process :
    (Robotoc.RiccatiRecursion.construct 0 0 1).isExitFailure = true
    ∧ (Robotoc.RaibertHeuristic.construct 0 (1/2)).isExitFailure = true := by
  constructor <;> rfl

/-- C4 amended: a solver component constructed with an invalid argument
(non-positive `N`, negative `max_num_impulse` or non-positive `nthreads`
for `RiccatiRecursion`; non-positive `period`, non-positive gain or gain
exceeding one for `RaibertHeuristic`) prints the diagnostic and terminates
the process via `std::exit(EXIT_FAILURE)` instead of surfacing the error to
the caller; with valid arguments construction succeeds. -/
theorem C4_amended_invalid_ctor_terminates_process :
    (∀ N max_num_impulse nthreads : ℤ,
      (Robotoc.RiccatiRecursion.construct N max_num_impulse nthreads).isExitFailure = true
        ↔ (N ≤ 0 ∨ max_num_impulse < 0 ∨ nthreads ≤ 0))
    ∧ (∀ period gain : ℚ,
      (Robotoc.RaibertHeuristic.construct period gain).isExitFailure = true
        ↔ (period ≤ 0 ∨ gain ≤ 0 ∨ 1 < gain)) := by
  constructor
  · intro N m t
    unfold Robotoc.RiccatiRecursion.construct
    split_ifs with h1 h2 h3 <;>
      simp_all [Robotoc.CtorOutcome.isExitFailure]
  · intro p g
    unfold Robotoc.RaibertHeuristic.construct
    split_ifs with h1 h2 h3 <;>
      simp_all [Robotoc.CtorOutcome.isExitFailure]

namespace Robotoc

/-! ## Backward Riccati recursion (`src/riccati/riccati_recursion.cpp`)

`RiccatiRecursion::backwardRiccatiRecursion` first writes the terminal
factorization (`factorization[N].P = kkt_matrix[N].Qxx`,
`factorization[N].s = - kkt_residual[N].lx`) and then runs a serial loop
`for (int i=N-1; i>=0; --i)` dispatching to `RiccatiFactorizer` overloads.
The factorizer itself (`riccati_factorizer.cpp`) is not under `src/`, so
its overloads are abstract function parameters here; `K` is the type of one
stage's KKT matrix/residual pair (passed by non-const reference and hence
possibly mutated), `M` and `V` the types of the cost-to-go matrix `P` and
vector `s`.  The LQR policies written by the factorizer are stored in
`lqr_policy_` and never read back inside this function, so they are not
part of the modelled state. -/

/-- One stage slot of the Riccati factorization (`P`, `s`). -/
structure SplitRiccatiFact (M V : Type) where
  P : M
  s : V

/-- The per-slot arrays of `RiccatiFactorization` (regular stages, aux,
impulse, lift, switching slots). -/
structure RiccatiFactState (M V : Type) where
  reg : ℕ → SplitRiccatiFact M V
  aux : ℕ → SplitRiccatiFact M V
  impulse : ℕ → SplitRiccatiFact M V
  liftSlot : ℕ → SplitRiccatiFact M V
  switching : ℕ → SplitRiccatiFact M V

/-- The per-slot arrays of the hybrid KKT matrix/residual containers. -/
structure StageKKTState (K : Type) where
  reg : ℕ → K
  aux : ℕ → K
  impulse : ℕ → K
  liftSlot : ℕ → K
  switching : ℕ → K

/-- The `ocp.discrete()` queries used by the backward recursion. -/
structure RiccatiDiscretization where
  N : ℕ
  isTimeStageBeforeImpulse : ℕ → Bool
  isTimeStageBeforeLift : ℕ → Bool
  impulseIndexAfterTimeStage : ℕ → ℕ
  liftIndexAfterTimeStage : ℕ → ℕ
  contactPhase : ℕ → ℕ
  isSTOEnabledPhase : ℕ → Bool
  isSTOEnabledNextPhase : ℕ → Bool

/-- The three `RiccatiFactorizer::backwardRiccatiRecursion` overloads used
by the loop: the standard stage overload (also used for aux and lift
stages), the impulse overload, and the switching-constraint overload (which
additionally writes the KKT data of stage `i-1` and the switching slot).
Each returns the updated KKT slot(s) and the newly computed factorization
slot(s). -/
structure RiccatiFactorizerOps (K M V : Type) where
  backwardStd : SplitRiccatiFact M V → K → Bool → Bool → K × SplitRiccatiFact M V
  backwardImpulse : SplitRiccatiFact M V → K → Bool → K × SplitRiccatiFact M V
  backwardSwitching : SplitRiccatiFact M V → K → K → Bool → Bool →
    K × K × SplitRiccatiFact M V × SplitRiccatiFact M V

/-- The body of the loop `for (int i=N-1; i>=0; --i)` of
`RiccatiRecursion::backwardRiccatiRecursion` at index `i`. -/
def backwardRiccatiStep {K M V : Type} (fz : RiccatiFactorizerOps K M V)
    (disc : RiccatiDiscretization) (i : ℕ)
    (st : StageKKTState K × RiccatiFactState M V) :
    StageKKTState K × RiccatiFactState M V :=
  let kkt := st.1
  let rf := st.2
  if disc.isTimeStageBeforeImpulse i then
    let impulse_index := disc.impulseIndexAfterTimeStage i
    let phase := disc.contactPhase i
    let sto := disc.isSTOEnabledPhase phase
    let sto_next := disc.isSTOEnabledNextPhase phase
    let sto_next_next := disc.isSTOEnabledNextPhase (phase + 1)
    let r1 := fz.backwardStd (rf.reg (i+1)) (kkt.aux impulse_index)
      sto_next sto_next_next
    let kkt1 := { kkt with aux := Function.update kkt.aux impulse_index r1.1 }
    let rf1 := { rf with aux := Function.update rf.aux impulse_index r1.2 }
    let r2 := fz.backwardImpulse (rf1.aux impulse_index)
      (kkt1.impulse impulse_index) sto
    let kkt2 := { kkt1 with impulse := Function.update kkt1.impulse impulse_index r2.1 }
    let rf2 := { rf1 with impulse := Function.update rf1.impulse impulse_index r2.2 }
    let r3 := fz.backwardStd (rf2.impulse impulse_index) (kkt2.reg i) sto sto_next
    let kkt3 := { kkt2 with reg := Function.update kkt2.reg i r3.1 }
    let rf3 := { rf2 with reg := Function.update rf2.reg i r3.2 }
    if 1 ≤ i then
      let r4 := fz.backwardSwitching (rf3.reg i) (kkt3.reg (i-1))
        (kkt3.switching impulse_index) sto sto_next
      ({ kkt3 with
          reg := Function.update kkt3.reg (i-1) r4.1,
          switching := Function.update kkt3.switching impulse_index r4.2.1 },
       { rf3 with
          reg := Function.update rf3.reg (i-1) r4.2.2.1,
          switching := Function.update rf3.switching impulse_index r4.2.2.2 })
    else
      (kkt3, rf3)
  else if disc.isTimeStageBeforeLift i then
    let lift_index := disc.liftIndexAfterTimeStage i
    let phase := disc.contactPhase i
    let sto := disc.isSTOEnabledPhase phase
    let sto_next := disc.isSTOEnabledNextPhase phase
    let sto_next_next := disc.isSTOEnabledNextPhase (phase + 1)
    let r1 := fz.backwardStd (rf.reg (i+1)) (kkt.liftSlot lift_index)
      sto_next sto_next_next
    let kkt1 := { kkt with liftSlot := Function.update kkt.liftSlot lift_index r1.1 }
    let rf1 := { rf with liftSlot := Function.update rf.liftSlot lift_index r1.2 }
    let r2 := fz.backwardStd (rf1.liftSlot lift_index) (kkt1.reg i) sto sto_next
    ({ kkt1 with reg := Function.update kkt1.reg i r2.1 },
     { rf1 with reg := Function.update rf1.reg i r2.2 })
  else if ¬ disc.isTimeStageBeforeImpulse (i+1) then
    let phase := disc.contactPhase i
    let sto := disc.isSTOEnabledPhase phase
    let sto_next := disc.isSTOEnabledNextPhase (phase + 1)
    let r := fz.backwardStd (rf.reg (i+1)) (kkt.reg i) sto sto_next
    ({ kkt with reg := Function.update kkt.reg i r.1 },
     { rf with reg := Function.update rf.reg i r.2 })
  else
    (kkt, rf)

/-- The serial loop: `backwardRiccatiSweep fz disc k st` runs the loop body
at indices `k-1, k-2, ..., 0` in that order. -/
def backwardRiccatiSweep {K M V : Type} (fz : RiccatiFactorizerOps K M V)
    (disc : RiccatiDiscretization) :
    ℕ → StageKKTState K × RiccatiFactState M V →
      StageKKTState K × RiccatiFactState M V
  | 0, st => st
  | k + 1, st => backwardRiccatiSweep fz disc k (backwardRiccatiStep fz disc k st)

/-- `RiccatiRecursion::backwardRiccatiRecursion`: write the terminal
factorization `P = Qxx`, `s = -lx` from the terminal stage `N` of the KKT
data, then sweep serially from `N-1` down to `0`.  `Qxx` and `lx` project
the terminal Hessian block and the terminal residual `lx` out of a stage
KKT slot. -/
def backwardRiccatiRecursion {K M V : Type} [Neg V]
    (fz : RiccatiFactorizerOps K M V) (disc : RiccatiDiscretization)
    (Qxx : K → M) (lx : K → V)
    (kkt : StageKKTState K) (rf : RiccatiFactState M V) :
    StageKKTState K × RiccatiFactState M V :=
  let rf0 := { rf with
    reg := Function.update rf.reg disc.N
      { P := Qxx (kkt.reg disc.N), s := - lx (kkt.reg disc.N) } }
  backwardRiccatiSweep fz disc disc.N (kkt, rf0)

/-- The loop body at index `i` only writes regular-stage factorization
slots `i` and `i-1`: every slot `j > i` is untouched. -/
theorem backwardRiccatiStep_frame {K M V : Type} (fz : RiccatiFactorizerOps K M V)
    (disc : RiccatiDiscretization) (i : ℕ)
    (st : StageKKTState K × RiccatiFactState M V) (j : ℕ) (hij : i < j) :
    ((backwardRiccatiStep fz disc i st).2.reg j) = st.2.reg j := by
  have hji : j ≠ i := by omega
  have hji1 : j ≠ i - 1 := by omega
  simp only [backwardRiccatiStep]
  split_ifs <;>
    simp [Function.update_noteq hji, Function.update_noteq hji1]

/-- The sweep over indices `k-1, ..., 0` leaves every regular-stage
factorization slot `j ≥ k` untouched. -/
theorem backwardRiccatiSweep_frame {K M V : Type} (fz : RiccatiFactorizerOps K M V)
    (disc : RiccatiDiscretization) (k : ℕ)
    (st : StageKKTState K × RiccatiFactState M V) (j : ℕ) (hkj : k ≤ j) :
    ((backwardRiccatiSweep fz disc k st).2.reg j) = st.2.reg j := by
  induction k generalizing st with
  | zero => rfl
  | succ k ih =>
      rw [backwardRiccatiSweep, ih (backwardRiccatiStep fz disc k st) (by omega),
        backwardRiccatiStep_frame fz disc k st j (by omega)]

end Robotoc

/-- C2: `RiccatiRecursion::backwardRiccatiRecursion` initializes the
terminal Riccati factorization with `P` at stage `N` equal to the terminal
KKT Hessian block `Qxx` and `s` at stage `N` equal to the negated terminal
KKT residual `lx`, before sweeping serially from stage `N-1` down to stage
`0` (which leaves the terminal slot untouched). -/
theorem C2_backward_riccati_terminal_init {K M V : Type} [Neg V]
    (fz : Robotoc.RiccatiFactorizerOps K M V)
    (disc : Robotoc.RiccatiDiscretization) (Qxx : K → M) (lx : K → V)
    (kkt : Robotoc.StageKKTState K) (rf : Robotoc.RiccatiFactState M V) :
    ((Robotoc.backwardRiccatiRecursion fz disc Qxx lx kkt rf).2.reg disc.N).P
        = Qxx (kkt.reg disc.N)
    ∧ ((Robotoc.backwardRiccatiRecursion fz disc Qxx lx kkt rf).2.reg disc.N).s
        = - lx (kkt.reg disc.N) := by
  unfold Robotoc.backwardRiccatiRecursion
  rw [Robotoc.backwardRiccatiSweep_frame fz disc disc.N _ disc.N (le_refl _)]
  simp

namespace Robotoc

/-! ## Step sizes of `RiccatiRecursion::computeDirection`
(`src/riccati/riccati_recursion.cpp`)

`computeDirection` loops `for (int i=0; i<N_all; ++i)` with
`N_all = N + 1 + 2*N_impulse + N_lift` and stores into
`max_primal_step_sizes_(i)` (resp. `max_dual_step_sizes_(i)`) the stage's
`maxPrimalStepSize()` (resp. `maxDualStepSize()`): from `ocp[i]` for
`i < N`, from `ocp.terminal` for `i == N`, from `ocp.impulse[i-(N+1)]`,
`ocp.aux[i-(N+1+N_impulse)]` and `ocp.lift[i-(N+1+2*N_impulse)]` for the
remaining slots.  `maxPrimalStepSize()`/`maxDualStepSize()` then return
`minCoeff()` of the first `N_all` entries. -/

/-- Modelled from the spec: `SplitOCP::maxPrimalStepSize` (and its
terminal/impulse/aux/lift analogues, whose implementations are not under
`src/`) "returns the minimum α across all constraint components at that
stage", each component's α lying in `(0, 1]`; with no limiting component
the step is the full step `1`. -/
def stageMinStepSize (alphas : List ℚ) : ℚ := alphas.foldl min 1

/-- The per-component step-size limits of every stage slot of the horizon:
regular stages `0..N-1`, the terminal stage, impulse, aux and lift
stages. -/
structure StageStepSizes where
  regAlphas : ℕ → List ℚ
  terminalAlphas : List ℚ
  impulseAlphas : ℕ → List ℚ
  auxAlphas : ℕ → List ℚ
  liftAlphas : ℕ → List ℚ

/-- The entry `computeDirection` stores at slot `i` of the step-size array:
the dispatch on `i` mirrors the `if (i < N) / (i == N) /
(i < N+1+N_impulse) / (i < N+1+2*N_impulse) / else` cascade of the loop
body. -/
def computeDirectionStepSize (N N_impulse : ℕ) (s : StageStepSizes) (i : ℕ) : ℚ :=
  if i < N then stageMinStepSize (s.regAlphas i)
  else if i = N then stageMinStepSize s.terminalAlphas
  else if i < N + 1 + N_impulse then stageMinStepSize (s.impulseAlphas (i - (N + 1)))
  else if i < N + 1 + 2 * N_impulse then
    stageMinStepSize (s.auxAlphas (i - (N + 1 + N_impulse)))
  else stageMinStepSize (s.liftAlphas (i - (N + 1 + 2 * N_impulse)))

/-- `minCoeff()` over entries `0..n` of the array `v`. -/
def minCoeffHead (v : ℕ → ℚ) : ℕ → ℚ
  | 0 => v 0
  | n + 1 => min (minCoeffHead v n) (v (n + 1))

/-- The data computed by `RiccatiRecursion::computeDirection` that is read
back by `maxPrimalStepSize()`/`maxDualStepSize()`: the two filled step-size
arrays and the updated `N_all_`. -/
structure ComputeDirectionOut where
  max_primal_step_sizes : ℕ → ℚ
  max_dual_step_sizes : ℕ → ℚ
  N_all : ℕ

/-- `RiccatiRecursion::computeDirection` restricted to its step-size
effect: both arrays are filled slot-wise and `N_all_` is set to
`N + 1 + 2*N_impulse + N_lift`. -/
def RiccatiRecursion.computeDirection (N N_impulse N_lift : ℕ)
    (primal dual : StageStepSizes) : ComputeDirectionOut :=
  { max_primal_step_sizes := computeDirectionStepSize N N_impulse primal,
    max_dual_step_sizes := computeDirectionStepSize N N_impulse dual,
    N_all := N + 1 + 2 * N_impulse + N_lift }

/-- `RiccatiRecursion::maxPrimalStepSize`:
`max_primal_step_sizes_.head(N_all_).minCoeff()`. -/
def RiccatiRecursion.maxPrimalStepSize (o : ComputeDirectionOut) : ℚ :=
  minCoeffHead o.max_primal_step_sizes (o.N_all - 1)

/-- `RiccatiRecursion::maxDualStepSize`:
`max_dual_step_sizes_.head(N_all_).minCoeff()`. -/
def RiccatiRecursion.maxDualStepSize (o : ComputeDirectionOut) : ℚ :=
  minCoeffHead o.max_dual_step_sizes (o.N_all - 1)

/-- `minCoeffHead v n` is a lower bound on every entry `v i`, `i ≤ n`. -/
theorem minCoeffHead_le (v : ℕ → ℚ) (n i : ℕ) (hin : i ≤ n) :
    minCoeffHead v n ≤ v i := by
  induction n with
  | zero =>
      have hi0 : i = 0 := Nat.le_zero.mp hin
      subst hi0
      exact le_refl _
  | succ n ih =>
      rcases Nat.eq_or_lt_of_le hin with h | h
      · subst h
        exact min_le_right _ _
      · exact le_trans (min_le_left _ _) (ih (by omega))

/-- `minCoeffHead v n` is attained at some entry `v i`, `i ≤ n`. -/
theorem minCoeffHead_attained (v : ℕ → ℚ) (n : ℕ) :
    ∃ i, i ≤ n ∧ minCoeffHead v n = v i := by
  induction n with
  | zero => exact ⟨0, le_refl 0, rfl⟩
  | succ n ih =>
      rcases ih with ⟨i, hi, hval⟩
      by_cases hc : minCoeffHead v n ≤ v (n + 1)
      · refine ⟨i, by omega, ?_⟩
        show min (minCoeffHead v n) (v (n + 1)) = v i
        rw [min_eq_left hc, hval]
      · refine ⟨n + 1, le_refl _, ?_⟩
        show min (minCoeffHead v n) (v (n + 1)) = v (n + 1)
        rw [min_eq_right (le_of_not_le hc)]

/-- `stageMinStepSize` is the minimum across the stage's constraint
components (capped at the full step `1`). -/
theorem stageMinStepSize_spec (alphas : List ℚ) :
    (∀ x ∈ alphas, stageMinStepSize alphas ≤ x)
    ∧ stageMinStepSize alphas ≤ 1
    ∧ (stageMinStepSize alphas = 1 ∨ stageMinStepSize alphas ∈ alphas) := by
  have key : ∀ (l : List ℚ) (a : ℚ),
      (∀ x ∈ l, l.foldl min a ≤ x) ∧ l.foldl min a ≤ a
        ∧ (l.foldl min a = a ∨ l.foldl min a ∈ l) := by
    intro l
    induction l with
    | nil =>
        intro a
        exact ⟨fun x hx => absurd hx (List.not_mem_nil x), le_refl _, Or.inl rfl⟩
    | cons b t ih =>
        intro a
        rcases ih (min a b) with ⟨hall, hle, hmem⟩
        refine ⟨?_, le_trans hle (min_le_left _ _), ?_⟩
        · intro x hx
          rcases List.mem_cons.mp hx with rfl | h
          · exact le_trans hle (min_le_right _ _)
          · exact hall x h
        · rcases hmem with h | h
          · rcases min_cases a b with ⟨hm, _⟩ | ⟨hm, _⟩
            · exact Or.inl (by rw [List.foldl_cons, h, hm])
            · exact Or.inr (by rw [List.foldl_cons, h, hm]; exact List.mem_cons_self b t)
          · exact Or.inr (List.mem_cons_of_mem b h)
  rcases key alphas 1 with ⟨hall, hle, hmem⟩
  exact ⟨hall, hle, hmem⟩

end Robotoc

/-- C5: after `RiccatiRecursion::computeDirection` over a horizon with `N`
regular stages, `N_impulse` impulse events and `N_lift` lift events,
`maxPrimalStepSize()` (resp. `maxDualStepSize()`) returns the minimum over
all `N + 1 + 2*N_impulse + N_lift` stage slots of that stage slot's maximum
primal (resp. dual) step size, each per-stage value being the minimum step
size across the constraint components at that stage (a property of
`stageMinStepSize`, which every slot value goes through). -/
theorem C5_max_step_size_is_min_over_slots (N N_impulse N_lift : ℕ)
    (primal dual : Robotoc.StageStepSizes) :
    (∀ i < N + 1 + 2 * N_impulse + N_lift,
        Robotoc.RiccatiRecursion.maxPrimalStepSize
            (Robotoc.RiccatiRecursion.computeDirection N N_impulse N_lift primal dual)
          ≤ Robotoc.computeDirectionStepSize N N_impulse primal i)
    ∧ (∃ i < N + 1 + 2 * N_impulse + N_lift,
        Robotoc.RiccatiRecursion.maxPrimalStepSize
            (Robotoc.RiccatiRecursion.computeDirection N N_impulse N_lift primal dual)
          = Robotoc.computeDirectionStepSize N N_impulse primal i)
    ∧ (∀ i < N + 1 + 2 * N_impulse + N_lift,
        Robotoc.RiccatiRecursion.maxDualStepSize
            (Robotoc.RiccatiRecursion.computeDirection N N_impulse N_lift primal dual)
          ≤ Robotoc.computeDirectionStepSize N N_impulse dual i)
    ∧ (∃ i < N + 1 + 2 * N_impulse + N_lift,
        Robotoc.RiccatiRecursion.maxDualStepSize
            (Robotoc.RiccatiRecursion.computeDirection N N_impulse N_lift primal dual)
          = Robotoc.computeDirectionStepSize N N_impulse dual i) := by
  have hN_all : (Robotoc.RiccatiRecursion.computeDirection N N_impulse N_lift
      primal dual).N_all = N + 1 + 2 * N_impulse + N_lift := rfl
  refine ⟨?_, ?_, ?_, ?_⟩
  · intro i hi
    exact Robotoc.minCoeffHead_le _ _ i (by omega)
  · rcases Robotoc.minCoeffHead_attained
        (Robotoc.computeDirectionStepSize N N_impulse primal)
        (N + 1 + 2 * N_impulse + N_lift - 1) with ⟨i, hi, hval⟩
    exact ⟨i, by omega, hval⟩
  · intro i hi
    exact Robotoc.minCoeffHead_le _ _ i (by omega)
  · rcases Robotoc.minCoeffHead_attained
        (Robotoc.computeDirectionStepSize N N_impulse dual)
        (N + 1 + 2 * N_impulse + N_lift - 1) with ⟨i, hi, hval⟩
    exact ⟨i, by omega, hval⟩

/-- C5 witness: the theorem applied at a concrete horizon, with the
quantified bounds evaluated at slot `0`. -/
theorem C5_max_step_size_witness :
    Robotoc.RiccatiRecursion.maxPrimalStepSize
        (Robotoc.RiccatiRecursion.computeDirection 1 1 1
          { regAlphas := fun _ => [1/2],
            terminalAlphas := [],
            impulseAlphas := fun _ => [3/4],
            auxAlphas := fun _ => [1],
            liftAlphas := fun _ => [2/3] }
          { regAlphas := fun _ => [1],
            terminalAlphas := [1/3],
            impulseAlphas := fun _ => [],
            auxAlphas := fun _ => [1],
            liftAlphas := fun _ => [1] })
      ≤ Robotoc.computeDirectionStepSize 1 1
          { regAlphas := fun _ => [1/2],
            terminalAlphas := [],
            impulseAlphas := fun _ => [3/4],
            auxAlphas := fun _ => [1],
            liftAlphas := fun _ => [2/3] } 0 := by
  have h := C5_max_step_size_is_min_over_slots 1 1 1
    { regAlphas := fun _ => [1/2],
      terminalAlphas := [],
      impulseAlphas := fun _ => [3/4],
      auxAlphas := fun _ => [1],
      liftAlphas := fun _ => [2/3] }
    { regAlphas := fun _ => [1],
      terminalAlphas := [1/3],
      impulseAlphas := fun _ => [],
      auxAlphas := fun _ => [1],
      liftAlphas := fun _ => [1] }
  exact h.1 0 (by norm_num)

namespace Robotoc

/-! ## Fraction-to-boundary rule (spec §4.2; the `pdipm` helper that
implements it is not under `src/`) -/

/-- Modelled from the spec: the fraction-to-boundary step-size rule of the
interior-point method, `α_max = max α ∈ (0,1]` such that
`slack + α·dslack ≥ (1−τ)·slack` componentwise: the minimum, over the
entries with a negative direction, of `−τ·slack_i / dslack_i`, capped at
the full step `1`.  `JointTorquesUpperLimit` (in `src/`) documents the
parameter `fraction_to_boundary_rule` as lying strictly between 0 and 1
with default `0.995`. -/
def fractionToBoundaryStepSize (tau : ℚ) (n : ℕ) (slack dslack : Fin n → ℚ) : ℚ :=
  (List.ofFn (fun i : Fin n =>
    if dslack i < 0 then - tau * slack i / dslack i else 1)).foldl min 1

/-- Generic facts about `List.foldl min`: the fold is a lower bound on the
seed and on every member, and it is positive when they all are. -/
theorem foldl_min_facts (l : List ℚ) (a : ℚ) :
    l.foldl min a ≤ a ∧ (∀ x ∈ l, l.foldl min a ≤ x)
      ∧ (0 < a → (∀ x ∈ l, 0 < x) → 0 < l.foldl min a) := by
  induction l generalizing a with
  | nil =>
      exact ⟨le_refl _, fun x hx => absurd hx (List.not_mem_nil x),
        fun ha _ => ha⟩
  | cons b t ih =>
      rcases ih (min a b) with ⟨hseed, hall, hpos⟩
      refine ⟨le_trans hseed (min_le_left _ _), ?_, ?_⟩
      · intro x hx
        rcases List.mem_cons.mp hx with rfl | h
        · exact le_trans hseed (min_le_right _ _)
        · exact hall x h
      · intro ha hl
        refine hpos (lt_min ha (hl b (List.mem_cons_self b t))) ?_
        intro x hx
        exact hl x (List.mem_cons_of_mem b hx)

end Robotoc

/-- C6: with every slack entry strictly positive and `0 < τ < 1`, any
applied step `0 < α ≤ α_max` given by the fraction-to-boundary rule keeps
`slack + α·dslack ≥ (1−τ)·slack` componentwise, hence every updated slack
entry stays strictly positive; moreover `0 < α_max ≤ 1`.  The same
statement applied to the dual variables gives the dual half of the
invariant. -/
theorem C6_fraction_to_boundary_keeps_positivity (tau : ℚ) (n : ℕ)
    (slack dslack : Fin n → ℚ) (alpha : ℚ)
    (htau0 : 0 < tau) (htau1 : tau < 1)
    (hslack : ∀ i, 0 < slack i)
    (halpha0 : 0 < alpha)
    (halpha : alpha ≤ Robotoc.fractionToBoundaryStepSize tau n slack dslack) :
    (∀ i, (1 - tau) * slack i ≤ slack i + alpha * dslack i)
    ∧ (∀ i, 0 < slack i + alpha * dslack i)
    ∧ 0 < Robotoc.fractionToBoundaryStepSize tau n slack dslack
    ∧ Robotoc.fractionToBoundaryStepSize tau n slack dslack ≤ 1 := by
  rcases Robotoc.foldl_min_facts
      (List.ofFn (fun i : Fin n =>
        if dslack i < 0 then - tau * slack i / dslack i else 1)) 1
    with ⟨hseed, hall, hpos⟩
  have hboundary : ∀ i, (1 - tau) * slack i ≤ slack i + alpha * dslack i := by
    intro i
    by_cases hdi : dslack i < 0
    · have hmem : (- tau * slack i / dslack i)
          ∈ List.ofFn (fun i : Fin n =>
            if dslack i < 0 then - tau * slack i / dslack i else 1) := by
        refine (List.mem_ofFn _ _).mpr ⟨i, ?_⟩
        simp [hdi]
      have hle : alpha ≤ - tau * slack i / dslack i :=
        le_trans halpha (hall _ hmem)
      have hmul : alpha * dslack i ≥ (- tau * slack i / dslack i) * dslack i := by
        exact mul_le_mul_of_nonpos_right hle (le_of_lt hdi)
      have hne : dslack i ≠ 0 := ne_of_lt hdi
      have hdiv : (- tau * slack i / dslack i) * dslack i = - tau * slack i := by
        field_simp
      nlinarith [hmul, hdiv]
    · push_neg at hdi
      nlinarith [hslack i, mul_nonneg (le_of_lt halpha0) hdi]
  have hapos : 0 < Robotoc.fractionToBoundaryStepSize tau n slack dslack := by
    refine hpos one_pos ?_
    intro x hx
    rcases (List.mem_ofFn _ _).mp hx with ⟨i, hi⟩
    by_cases hdi : dslack i < 0
    · rw [← hi]
      simp only [hdi, if_true]
      have hnum : 0 < tau * slack i := mul_pos htau0 (hslack i)
      have hq : tau * slack i / dslack i < 0 := div_neg_of_pos_of_neg hnum hdi
      have hrw : - tau * slack i / dslack i = - (tau * slack i / dslack i) := by
        ring
      rw [hrw]
      linarith
    · rw [← hi]
      simp [hdi]
  refine ⟨hboundary, ?_, hapos, hseed⟩
  intro i
  calc (0:ℚ) < (1 - tau) * slack i := by nlinarith [hslack i]
    _ ≤ slack i + alpha * dslack i := hboundary i

/-- C6 witness: the theorem at `τ = 199/200` (0.995), a two-dimensional
slack `(1, 2)` with direction `(-2, 1)` and the full fraction-to-boundary
step `α = 199/400`. -/
theorem C6_fraction_to_boundary_witness :
    (∀ i, (1 - (199/200 : ℚ)) * (![1, 2] : Fin 2 → ℚ) i
        ≤ (![1, 2] : Fin 2 → ℚ) i + (199/400 : ℚ) * (![-2, 1] : Fin 2 → ℚ) i)
    ∧ (∀ i, 0 < (![1, 2] : Fin 2 → ℚ) i + (199/400 : ℚ) * (![-2, 1] : Fin 2 → ℚ) i)
    ∧ 0 < Robotoc.fractionToBoundaryStepSize (199/200) 2 ![1, 2] ![-2, 1]
    ∧ Robotoc.fractionToBoundaryStepSize (199/200) 2 ![1, 2] ![-2, 1] ≤ 1 :=
  C6_fraction_to_boundary_keeps_positivity (199/200) 2 ![1, 2] ![-2, 1] (199/400)
    (by norm_num) (by norm_num)
    (by intro i; fin_cases i <;> norm_num)
    (by norm_num)
    (by
      have hval : Robotoc.fractionToBoundaryStepSize (199/200) 2 ![1, 2] ![-2, 1]
          = 199/400 := by
        simp [Robotoc.fractionToBoundaryStepSize, List.ofFn_succ]
        norm_num
      rw [hval])

namespace Robotoc

/-! ## Contact-status-dependent dimensions of the split KKT data
(`include/robotoc/ocp/split_kkt_residual.hpp`,
`include/robotoc/ocp/split_kkt_matrix.hpp`)

The headers declare fixed maximum-size private buffers (`lf_full_`,
`Qff_full_`, `Qqf_full_`, `hf_full_`) plus an `int dimf_`;
`setContactStatus` and the accessors are implemented in `.hxx` files that
are not under `src/`, so they are modelled from the spec ("after
`setContactStatus`, all accessor sizes agree", "merely adjusts dimension
accessors — underlying storage is not reallocated") and the header doc
comments (`lf()` has size `dimf()`, `Qff()` is `dimf() x dimf()`,
`Qqf()` is `dimv() x dimf()`). -/

/-- Modelled from the spec: `ContactStatus` over point contacts; the
active set is the vector of per-contact activity flags and
`dim(f) = 3·|active contacts|`. -/
structure ContactStatus where
  isContactActive : List Bool

/-- `ContactStatus::dimf()`: three dimensions per active point contact. -/
def ContactStatus.dimf (cs : ContactStatus) : ℕ := 3 * cs.isContactActive.count true

/-- The state of a `SplitKKTResidual`: the fixed-size members, the
pre-allocated maximum-size contact-force buffer `lf_full_` and the current
contact dimension `dimf_`. -/
structure SplitKKTResidualState where
  Fx : List ℚ
  lx : List ℚ
  la : List ℚ
  lu : List ℚ
  lf_full : ℕ → ℚ
  dimv : ℕ
  dimu : ℕ
  dimf : ℕ

/-- Modelled from the spec: `SplitKKTResidual::setContactStatus` merely
adjusts the dimension accessor (`dimf_ = contact_status.dimf()`); it does
not touch any buffer. -/
def SplitKKTResidualState.setContactStatus (r : SplitKKTResidualState)
    (cs : ContactStatus) : SplitKKTResidualState :=
  { r with dimf := cs.dimf }

/-- `SplitKKTResidual::lf()`: the view `lf_full_.head(dimf_)` into the
pre-allocated buffer. -/
def SplitKKTResidualState.lf (r : SplitKKTResidualState) : List ℚ :=
  (List.range r.dimf).map r.lf_full

/-- The state of a `SplitKKTMatrix`: the pre-allocated maximum-size
buffers `Qff_full_`, `Qqf_full_`, `hf_full_` and the current contact
dimension `dimf_`. -/
structure SplitKKTMatrixState where
  Qxx : List (List ℚ)
  Quu : List (List ℚ)
  Qff_full : ℕ → ℕ → ℚ
  Qqf_full : ℕ → ℕ → ℚ
  hf_full : ℕ → ℚ
  dimv : ℕ
  dimu : ℕ
  dimf : ℕ

/-- Modelled from the spec: `SplitKKTMatrix::setContactStatus` merely
adjusts the dimension accessor (`dimf_ = contact_status.dimf()`). -/
def SplitKKTMatrixState.setContactStatus (m : SplitKKTMatrixState)
    (cs : ContactStatus) : SplitKKTMatrixState :=
  { m with dimf := cs.dimf }

/-- `SplitKKTMatrix::Qff()`: the `dimf() x dimf()` top-left view into
`Qff_full_`. -/
def SplitKKTMatrixState.Qff (m : SplitKKTMatrixState) : List (List ℚ) :=
  (List.range m.dimf).map (fun i => (List.range m.dimf).map (m.Qff_full i))

/-- `SplitKKTMatrix::Qqf()`: the `dimv() x dimf()` top-left view into
`Qqf_full_`. -/
def SplitKKTMatrixState.Qqf (m : SplitKKTMatrixState) : List (List ℚ) :=
  (List.range m.dimv).map (fun i => (List.range m.dimf).map (m.Qqf_full i))

/-- `SplitKKTMatrix::hf()`: the view `hf_full_.head(dimf_)`. -/
def SplitKKTMatrixState.hf (m : SplitKKTMatrixState) : List ℚ :=
  (List.range m.dimf).map m.hf_full

end Robotoc

/-- C7: after `setContactStatus` on a `SplitKKTResidual` and a
`SplitKKTMatrix`, `dimf()` equals three times the number of active point
contacts, every contact-force accessor (`lf()`, `Qff()`, `Qqf()`, `hf()`)
has exactly that dimension as a view into the pre-allocated maximum-size
buffer, and no underlying storage is reallocated (every buffer and every
other member is unchanged). -/
theorem C7_set_contact_status_dimensions (r : Robotoc.SplitKKTResidualState)
    (m : Robotoc.SplitKKTMatrixState) (cs : Robotoc.ContactStatus) :
    ((r.setContactStatus cs).dimf = 3 * cs.isContactActive.count true
      ∧ (m.setContactStatus cs).dimf = 3 * cs.isContactActive.count true)
    ∧ ((r.setContactStatus cs).lf.length = (r.setContactStatus cs).dimf
      ∧ (m.setContactStatus cs).Qff.length = (m.setContactStatus cs).dimf
      ∧ (m.setContactStatus cs).Qff.map List.length
          = List.replicate (m.setContactStatus cs).dimf (m.setContactStatus cs).dimf
      ∧ (m.setContactStatus cs).Qqf.length = (m.setContactStatus cs).dimv
      ∧ (m.setContactStatus cs).Qqf.map List.length
          = List.replicate (m.setContactStatus cs).dimv (m.setContactStatus cs).dimf
      ∧ (m.setContactStatus cs).hf.length = (m.setContactStatus cs).dimf)
    ∧ ((r.setContactStatus cs).lf_full = r.lf_full
      ∧ (r.setContactStatus cs).Fx = r.Fx
      ∧ (r.setContactStatus cs).lx = r.lx
      ∧ (r.setContactStatus cs).la = r.la
      ∧ (r.setContactStatus cs).lu = r.lu
      ∧ (r.setContactStatus cs).dimv = r.dimv
      ∧ (r.setContactStatus cs).dimu = r.dimu
      ∧ (m.setContactStatus cs).Qff_full = m.Qff_full
      ∧ (m.setContactStatus cs).Qqf_full = m.Qqf_full
      ∧ (m.setContactStatus cs).hf_full = m.hf_full
      ∧ (m.setContactStatus cs).Qxx = m.Qxx
      ∧ (m.setContactStatus cs).Quu = m.Quu
      ∧ (m.setContactStatus cs).dimv = m.dimv
      ∧ (m.setContactStatus cs).dimu = m.dimu) := by
  refine ⟨⟨rfl, rfl⟩, ⟨?_, ?_, ?_, ?_, ?_, ?_⟩,
    rfl, rfl, rfl, rfl, rfl, rfl, rfl, rfl, rfl, rfl, rfl, rfl, rfl, rfl⟩
  · simp [Robotoc.SplitKKTResidualState.lf]
  · simp [Robotoc.SplitKKTMatrixState.Qff]
  · refine List.eq_replicate_iff.mpr ⟨?_, ?_⟩
    · simp [Robotoc.SplitKKTMatrixState.Qff]
    · intro b hb
      rcases List.mem_map.mp hb with ⟨row, hrow, hlen⟩
      rcases List.mem_map.mp hrow with ⟨i, _, hrowdef⟩
      rw [← hlen, ← hrowdef]
      simp
  · simp [Robotoc.SplitKKTMatrixState.Qqf]
  · refine List.eq_replicate_iff.mpr ⟨?_, ?_⟩
    · simp [Robotoc.SplitKKTMatrixState.Qqf]
    · intro b hb
      rcases List.mem_map.mp hb with ⟨row, hrow, hlen⟩
      rcases List.mem_map.mp hrow with ⟨i, _, hrowdef⟩
      rw [← hlen, ← hrowdef]
      simp
  · simp [Robotoc.SplitKKTMatrixState.hf]

namespace Robotoc

/-! ## Switching-time update of `STO::integrateSolution`
(`include/robotoc/hybrid/sto.hxx`) -/

/-- The event-time state of a `ContactSequence`: the impulse event times
and the lift event times. -/
structure ContactSequenceTimes where
  impulseTimes : ℕ → ℚ
  liftTimes : ℕ → ℚ

/-- Modelled from the spec: `ContactSequence::setImpulseTime(index, t)`
"updates switching times": sets the time of the given impulse event. -/
def ContactSequenceTimes.setImpulseTime (cs : ContactSequenceTimes)
    (index : ℕ) (t : ℚ) : ContactSequenceTimes :=
  { cs with impulseTimes := Function.update cs.impulseTimes index t }

/-- Modelled from the spec: `ContactSequence::setLiftTime(index, t)` sets
the time of the given lift event. -/
def ContactSequenceTimes.setLiftTime (cs : ContactSequenceTimes)
    (index : ℕ) (t : ℚ) : ContactSequenceTimes :=
  { cs with liftTimes := Function.update cs.liftTimes index t }

/-- The `ocp.discrete()` queries used by `STO::integrateSolution`. -/
structure STOEventQuery where
  N_impulse : ℕ
  N_lift : ℕ
  isSTOEnabledImpulse : ℕ → Bool
  isSTOEnabledLift : ℕ → Bool

/-- The switching-time components of the Newton direction used by
`STO::integrateSolution`: `d.aux[i].dts` and `d.lift[i].dts`. -/
structure STODirection where
  auxDts : ℕ → ℚ
  liftDts : ℕ → ℚ

/-- `STO::integrateSolution` restricted to its effect on the contact
sequence (`sto_constraints_->updateSlack/updateDual` touch only the STO
constraint data): when STO is globally enabled, every STO-enabled impulse
event time is moved by `primal_step_size * d.aux[impulse_index].dts` via
`setImpulseTime`, then every STO-enabled lift event time is moved by
`primal_step_size * d.lift[lift_index].dts` via `setLiftTime`; when STO is
globally disabled the body is skipped. -/
def STO.integrateSolution (is_sto_enabled : Bool) (disc : STOEventQuery)
    (primal_step_size : ℚ) (d : STODirection) (cs : ContactSequenceTimes) :
    ContactSequenceTimes :=
  if is_sto_enabled then
    let cs1 := (List.range disc.N_impulse).foldl
      (fun s impulse_index =>
        if disc.isSTOEnabledImpulse impulse_index then
          s.setImpulseTime impulse_index
            (s.impulseTimes impulse_index + primal_step_size * d.auxDts impulse_index)
        else s) cs
    (List.range disc.N_lift).foldl
      (fun s lift_index =>
        if disc.isSTOEnabledLift lift_index then
          s.setLiftTime lift_index
            (s.liftTimes lift_index + primal_step_size * d.liftDts lift_index)
        else s) cs1
  else cs


/-- Projection of `setImpulseTime` on the impulse times. -/
theorem ContactSequenceTimes.impulseTimes_setImpulseTime
    (s : ContactSequenceTimes) (i : ℕ) (t : ℚ) :
    (s.setImpulseTime i t).impulseTimes = Function.update s.impulseTimes i t := rfl

/-- `setImpulseTime` leaves the lift times unchanged. -/
theorem ContactSequenceTimes.liftTimes_setImpulseTime
    (s : ContactSequenceTimes) (i : ℕ) (t : ℚ) :
    (s.setImpulseTime i t).liftTimes = s.liftTimes := rfl

/-- Projection of `setLiftTime` on the lift times. -/
theorem ContactSequenceTimes.liftTimes_setLiftTime
    (s : ContactSequenceTimes) (i : ℕ) (t : ℚ) :
    (s.setLiftTime i t).liftTimes = Function.update s.liftTimes i t := rfl

/-- `setLiftTime` leaves the impulse times unchanged. -/
theorem ContactSequenceTimes.impulseTimes_setLiftTime
    (s : ContactSequenceTimes) (i : ℕ) (t : ℚ) :
    (s.setLiftTime i t).impulseTimes = s.impulseTimes := rfl

/-- The impulse-time loop of `integrateSolution`, evaluated pointwise: the
fold over `0, ..., n-1` moves index `j < n` with the STO flag on by its
step, and leaves every other index unchanged; the lift times are untouched
by it. -/
theorem sto_impulse_fold_eval (sto : ℕ → Bool) (step : ℕ → ℚ)
    (n : ℕ) (cs : ContactSequenceTimes) :
    (((List.range n).foldl
        (fun s impulse_index =>
          if sto impulse_index then
            s.setImpulseTime impulse_index
              (s.impulseTimes impulse_index + step impulse_index)
          else s) cs).impulseTimes
      = fun j => if j < n ∧ sto j then cs.impulseTimes j + step j
          else cs.impulseTimes j)
    ∧ ((List.range n).foldl
        (fun s impulse_index =>
          if sto impulse_index then
            s.setImpulseTime impulse_index
              (s.impulseTimes impulse_index + step impulse_index)
          else s) cs).liftTimes = cs.liftTimes := by
  induction n with
  | zero =>
      refine ⟨?_, rfl⟩
      funext j
      simp
  | succ n ih =>
      rcases ih with ⟨himp, hlift⟩
      rw [List.range_succ, List.foldl_append, List.foldl_cons, List.foldl_nil]
      have hiff : ∀ j, j ≠ n → ((j < n + 1 ∧ sto j = true) ↔ (j < n ∧ sto j = true)) := by
        intro j hjn
        constructor
        · rintro ⟨h1, h2⟩
          exact ⟨by omega, h2⟩
        · rintro ⟨h1, h2⟩
          exact ⟨by omega, h2⟩
      by_cases hn : sto n = true
      · rw [if_pos hn]
        refine ⟨?_, ?_⟩
        · rw [ContactSequenceTimes.impulseTimes_setImpulseTime, himp]
          funext j
          by_cases hjn : j = n
          · subst hjn
            rw [Function.update_same]
            have h1 : ¬ (j < j ∧ sto j = true) := fun h => absurd h.1 (lt_irrefl j)
            simp only [if_neg h1, if_pos (And.intro (Nat.lt_succ_self j) hn)]
          · rw [Function.update_noteq hjn]
            by_cases hj : j < n ∧ sto j = true
            · rw [if_pos hj, if_pos ((hiff j hjn).mpr hj)]
            · rw [if_neg hj, if_neg (fun hc => hj ((hiff j hjn).mp hc))]
        · rw [ContactSequenceTimes.liftTimes_setImpulseTime, hlift]
      · rw [if_neg hn]
        refine ⟨?_, hlift⟩
        rw [himp]
        funext j
        by_cases hjn : j = n
        · subst hjn
          have h1 : ¬ (j < j ∧ sto j = true) := fun h => absurd h.1 (lt_irrefl j)
          have h2 : ¬ (j < j + 1 ∧ sto j = true) := fun h => absurd h.2 hn
          rw [if_neg h1, if_neg h2]
        · by_cases hj : j < n ∧ sto j = true
          · rw [if_pos hj, if_pos ((hiff j hjn).mpr hj)]
          · rw [if_neg hj, if_neg (fun hc => hj ((hiff j hjn).mp hc))]

/-- The lift-time loop of `integrateSolution`, evaluated pointwise; the
impulse times are untouched by it. -/
theorem sto_lift_fold_eval (sto : ℕ → Bool) (step : ℕ → ℚ)
    (n : ℕ) (cs : ContactSequenceTimes) :
    (((List.range n).foldl
        (fun s lift_index =>
          if sto lift_index then
            s.setLiftTime lift_index
              (s.liftTimes lift_index + step lift_index)
          else s) cs).liftTimes
      = fun j => if j < n ∧ sto j then cs.liftTimes j + step j
          else cs.liftTimes j)
    ∧ ((List.range n).foldl
        (fun s lift_index =>
          if sto lift_index then
            s.setLiftTime lift_index
              (s.liftTimes lift_index + step lift_index)
          else s) cs).impulseTimes = cs.impulseTimes := by
  induction n with
  | zero =>
      refine ⟨?_, rfl⟩
      funext j
      simp
  | succ n ih =>
      rcases ih with ⟨hlift, himp⟩
      rw [List.range_succ, List.foldl_append, List.foldl_cons, List.foldl_nil]
      have hiff : ∀ j, j ≠ n → ((j < n + 1 ∧ sto j = true) ↔ (j < n ∧ sto j = true)) := by
        intro j hjn
        constructor
        · rintro ⟨h1, h2⟩
          exact ⟨by omega, h2⟩
        · rintro ⟨h1, h2⟩
          exact ⟨by omega, h2⟩
      by_cases hn : sto n = true
      · rw [if_pos hn]
        refine ⟨?_, ?_⟩
        · rw [ContactSequenceTimes.liftTimes_setLiftTime, hlift]
          funext j
          by_cases hjn : j = n
          · subst hjn
            rw [Function.update_same]
            have h1 : ¬ (j < j ∧ sto j = true) := fun h => absurd h.1 (lt_irrefl j)
            simp only [if_neg h1, if_pos (And.intro (Nat.lt_succ_self j) hn)]
          · rw [Function.update_noteq hjn]
            by_cases hj : j < n ∧ sto j = true
            · rw [if_pos hj, if_pos ((hiff j hjn).mpr hj)]
            · rw [if_neg hj, if_neg (fun hc => hj ((hiff j hjn).mp hc))]
        · rw [ContactSequenceTimes.impulseTimes_setLiftTime, himp]
      · rw [if_neg hn]
        refine ⟨?_, himp⟩
        rw [hlift]
        funext j
        by_cases hjn : j = n
        · subst hjn
          have h1 : ¬ (j < j ∧ sto j = true) := fun h => absurd h.1 (lt_irrefl j)
          have h2 : ¬ (j < j + 1 ∧ sto j = true) := fun h => absurd h.2 hn
          rw [if_neg h1, if_neg h2]
        · by_cases hj : j < n ∧ sto j = true
          · rw [if_pos hj, if_pos ((hiff j hjn).mpr hj)]
          · rw [if_neg hj, if_neg (fun hc => hj ((hiff j hjn).mp hc))]

end Robotoc

namespace Robotoc

/-- `STO::integrateSolution` with STO globally enabled, evaluated on the
event times: both loops combined, pointwise. -/
theorem integrateSolution_times_eval (disc : STOEventQuery) (alpha : ℚ)
    (d : STODirection) (cs : ContactSequenceTimes) :
    ((STO.integrateSolution true disc alpha d cs).impulseTimes
      = fun j => if j < disc.N_impulse ∧ disc.isSTOEnabledImpulse j then
          cs.impulseTimes j + alpha * d.auxDts j else cs.impulseTimes j)
    ∧ ((STO.integrateSolution true disc alpha d cs).liftTimes
      = fun j => if j < disc.N_lift ∧ disc.isSTOEnabledLift j then
          cs.liftTimes j + alpha * d.liftDts j else cs.liftTimes j) := by
  have himp := sto_impulse_fold_eval disc.isSTOEnabledImpulse
    (fun i => alpha * d.auxDts i) disc.N_impulse cs
  have hlift := sto_lift_fold_eval disc.isSTOEnabledLift
    (fun i => alpha * d.liftDts i) disc.N_lift
    ((List.range disc.N_impulse).foldl
      (fun s impulse_index =>
        if disc.isSTOEnabledImpulse impulse_index then
          s.setImpulseTime impulse_index
            (s.impulseTimes impulse_index + alpha * d.auxDts impulse_index)
        else s) cs)
  simp only [STO.integrateSolution, eq_self_iff_true, if_true]
  constructor
  · rw [hlift.2]
    exact himp.1
  · rw [hlift.1]
    simp only [himp.2]

end Robotoc

/-- C8: `STO::integrateSolution`, when STO is enabled, moves the time of
every STO-enabled impulse event by `primal_step_size * d.aux[i].dts` (and
every STO-enabled lift event by `primal_step_size * d.lift[i].dts`) via
`setImpulseTime`/`setLiftTime`, leaves the times of events whose STO flag
is off unchanged, and when STO is globally disabled modifies nothing. -/
theorem C8_sto_integrate_solution (disc : Robotoc.STOEventQuery) (alpha : ℚ)
    (d : Robotoc.STODirection) (cs : Robotoc.ContactSequenceTimes) :
    (∀ i, i < disc.N_impulse → disc.isSTOEnabledImpulse i = true →
        (Robotoc.STO.integrateSolution true disc alpha d cs).impulseTimes i
          = cs.impulseTimes i + alpha * d.auxDts i)
    ∧ (∀ i, disc.isSTOEnabledImpulse i = false →
        (Robotoc.STO.integrateSolution true disc alpha d cs).impulseTimes i
          = cs.impulseTimes i)
    ∧ (∀ i, i < disc.N_lift → disc.isSTOEnabledLift i = true →
        (Robotoc.STO.integrateSolution true disc alpha d cs).liftTimes i
          = cs.liftTimes i + alpha * d.liftDts i)
    ∧ (∀ i, disc.isSTOEnabledLift i = false →
        (Robotoc.STO.integrateSolution true disc alpha d cs).liftTimes i
          = cs.liftTimes i)
    ∧ Robotoc.STO.integrateSolution false disc alpha d cs = cs := by
  have h := Robotoc.integrateSolution_times_eval disc alpha d cs
  refine ⟨?_, ?_, ?_, ?_, rfl⟩
  · intro i hi hflag
    simp only [h.1]
    rw [if_pos (And.intro hi hflag)]
  · intro i hflag
    simp only [h.1]
    rw [if_neg]
    rintro ⟨h1, h2⟩
    rw [hflag] at h2
    exact absurd h2 (by decide)
  · intro i hi hflag
    simp only [h.2]
    rw [if_pos (And.intro hi hflag)]
  · intro i hflag
    simp only [h.2]
    rw [if_neg]
    rintro ⟨h1, h2⟩
    rw [hflag] at h2
    exact absurd h2 (by decide)

/-- C8 witness: the theorem at a concrete contact sequence with two
impulse events (only the first STO-enabled) and one STO-enabled lift
event, with step size `1/2`. -/
theorem C8_sto_integrate_solution_witness :
    ((Robotoc.STO.integrateSolution true
        { N_impulse := 2, N_lift := 1,
          isSTOEnabledImpulse := fun i => i == 0,
          isSTOEnabledLift := fun _ => true }
        (1/2)
        { auxDts := fun _ => 3, liftDts := fun _ => 4 }
        { impulseTimes := fun i => (i : ℚ), liftTimes := fun _ => 10 }).impulseTimes 0
      = ((0 : ℕ) : ℚ) + (1/2) * 3)
    ∧ ((Robotoc.STO.integrateSolution true
        { N_impulse := 2, N_lift := 1,
          isSTOEnabledImpulse := fun i => i == 0,
          isSTOEnabledLift := fun _ => true }
        (1/2)
        { auxDts := fun _ => 3, liftDts := fun _ => 4 }
        { impulseTimes := fun i => (i : ℚ), liftTimes := fun _ => 10 }).impulseTimes 1
      = ((1 : ℕ) : ℚ)) := by
  have h := C8_sto_integrate_solution
    { N_impulse := 2, N_lift := 1,
      isSTOEnabledImpulse := fun i => i == 0,
      isSTOEnabledLift := fun _ => true }
    (1/2)
    { auxDts := fun _ => 3, liftDts := fun _ => 4 }
    { impulseTimes := fun i => (i : ℚ), liftTimes := fun _ => 10 }
  exact ⟨h.1 0 (by norm_num) (by decide), h.2.1 1 (by decide)⟩

namespace Robotoc

/-! ## `STO::KKTError` (`include/robotoc/hybrid/sto.hxx`)

The function zeroes `h_phase_`, accumulates the scalar Hamiltonian
residuals `h` of the regular, aux and lift stages into it indexed by
contact phase, then walks the events in order keeping running
impulse/lift ordinals and adds `hdiff * hdiff` for every STO-enabled
event, finally returning `std::sqrt(kkt_error)`. -/

/-- `robotoc::DiscreteEventType`. -/
inductive DiscreteEventType where
  | impulse
  | liftType
  | noneType
deriving DecidableEq

/-- The `ocp.discrete()` queries used by `STO::KKTError`. -/
structure STODiscretization where
  N : ℕ
  N_impulse : ℕ
  N_lift : ℕ
  contactPhase : ℕ → ℕ
  contactPhaseAfterImpulse : ℕ → ℕ
  contactPhaseAfterLift : ℕ → ℕ
  eventType : ℕ → DiscreteEventType
  isSTOEnabledImpulse : ℕ → Bool
  isSTOEnabledLift : ℕ → Bool

/-- The scalar Hamiltonian residuals `h` of the stages of the hybrid KKT
residual: `kkt_residual[stage].h`, `kkt_residual.aux[i].h` and
`kkt_residual.lift[i].h`.  (The impulse-stage residuals carry no `h` and
are not read by `STO::KKTError`.) -/
structure STOKKTResidualH where
  regH : ℕ → ℚ
  auxH : ℕ → ℚ
  liftH : ℕ → ℚ

/-- One accumulation loop
`for (s=0; s<n; ++s) h_phase_(phaseOf(s)) += w(s)` on top of `h`. -/
def hPhaseAccum (phaseOf : ℕ → ℕ) (w : ℕ → ℚ) (n : ℕ) (h : ℕ → ℚ) : ℕ → ℚ :=
  (List.range n).foldl
    (fun hacc stage =>
      Function.update hacc (phaseOf stage) (hacc (phaseOf stage) + w stage)) h

/-- The `h_phase_` array after `h_phase_.setZero()` and the three
accumulation loops of `STO::KKTError` (regular stages, then aux stages,
then lift stages). -/
def STO.hPhase (disc : STODiscretization) (r : STOKKTResidualH) : ℕ → ℚ :=
  hPhaseAccum disc.contactPhaseAfterLift r.liftH disc.N_lift
    (hPhaseAccum disc.contactPhaseAfterImpulse r.auxH disc.N_impulse
      (hPhaseAccum disc.contactPhase r.regH disc.N (fun _ => 0)))

/-- The body of the event loop of `STO::KKTError`: the state is
`(kkt_error, impulse_index, lift_index)`; the C++ `else` branch (asserted
to be a lift event) is taken for every non-impulse event type. -/
def STO.kktErrorStep (disc : STODiscretization) (h : ℕ → ℚ)
    (st : ℚ × ℕ × ℕ) (event_index : ℕ) : ℚ × ℕ × ℕ :=
  match disc.eventType event_index with
  | DiscreteEventType.impulse =>
      (if disc.isSTOEnabledImpulse st.2.1 then
          st.1 + (h event_index - h (event_index + 1))
            * (h event_index - h (event_index + 1))
        else st.1,
       st.2.1 + 1, st.2.2)
  | _ =>
      (if disc.isSTOEnabledLift st.2.2 then
          st.1 + (h event_index - h (event_index + 1))
            * (h event_index - h (event_index + 1))
        else st.1,
       st.2.1, st.2.2 + 1)

/-- The event loop of `STO::KKTError` over the first `n` events, starting
from `kkt_error = 0`, `impulse_index = 0`, `lift_index = 0`. -/
def STO.kktErrorSqLoop (disc : STODiscretization) (h : ℕ → ℚ) (n : ℕ) :
    ℚ × ℕ × ℕ :=
  (List.range n).foldl (STO.kktErrorStep disc h) (0, 0, 0)

/-- The radicand accumulated by `STO::KKTError(ocp, kkt_residual)`; the
function returns `std::sqrt` of this value. -/
def STO.KKTErrorSq (disc : STODiscretization) (r : STOKKTResidualH) : ℚ :=
  (STO.kktErrorSqLoop disc (STO.hPhase disc r)
    (disc.N_impulse + disc.N_lift)).1

/-- The impulse ordinal of event `e`: how many of the events before it are
impulse events (the value the running `impulse_index` has when the loop
reaches `e`). -/
def impulseEventsBefore (disc : STODiscretization) (e : ℕ) : ℕ :=
  (List.range e).countP
    (fun k => decide (disc.eventType k = DiscreteEventType.impulse))

/-- The lift ordinal of event `e`: how many of the events before it are
non-impulse events. -/
def liftEventsBefore (disc : STODiscretization) (e : ℕ) : ℕ :=
  (List.range e).countP
    (fun k => decide (¬ disc.eventType k = DiscreteEventType.impulse))

/-- Whether the STO flag of event `e` is on: the impulse flag at the
event's impulse ordinal for impulse events, the lift flag at its lift
ordinal otherwise. -/
def STO.eventSTOEnabled (disc : STODiscretization) (e : ℕ) : Bool :=
  match disc.eventType e with
  | DiscreteEventType.impulse =>
      disc.isSTOEnabledImpulse (impulseEventsBefore disc e)
  | _ => disc.isSTOEnabledLift (liftEventsBefore disc e)

/-- The phase-wise Hamiltonian sum as the claim states it: the sum of the
`h` residuals of the regular, aux and lift stages belonging to phase
`p`. -/
def STO.hPhaseSpec (disc : STODiscretization) (r : STOKKTResidualH) (p : ℕ) : ℚ :=
  (((List.range disc.N).filter (fun s => disc.contactPhase s = p)).map r.regH).sum
  + (((List.range disc.N_impulse).filter
      (fun s => disc.contactPhaseAfterImpulse s = p)).map r.auxH).sum
  + (((List.range disc.N_lift).filter
      (fun s => disc.contactPhaseAfterLift s = p)).map r.liftH).sum

/-- The radicand as the claim states it: the sum over exactly the
STO-enabled events of the squared difference of the adjacent phase-wise
Hamiltonian sums. -/
def STO.KKTErrorSqSpec (disc : STODiscretization) (r : STOKKTResidualH) : ℚ :=
  (((List.range (disc.N_impulse + disc.N_lift)).filter
      (fun e => STO.eventSTOEnabled disc e)).map
    (fun e => (STO.hPhaseSpec disc r e - STO.hPhaseSpec disc r (e + 1)) ^ 2)).sum

/-- Pointwise value of one accumulation loop. -/
theorem hPhaseAccum_eval (phaseOf : ℕ → ℕ) (w : ℕ → ℚ) (n : ℕ) (h : ℕ → ℚ)
    (j : ℕ) :
    hPhaseAccum phaseOf w n h j
      = h j + (((List.range n).filter (fun s => phaseOf s = j)).map w).sum := by
  induction n with
  | zero => simp [hPhaseAccum]
  | succ n ih =>
      unfold hPhaseAccum at ih ⊢
      rw [List.range_succ, List.foldl_append, List.foldl_cons, List.foldl_nil,
        List.filter_append, List.map_append, List.sum_append]
      by_cases hp : phaseOf n = j
      · rw [Function.update_apply, if_pos hp.symm, hp, ih]
        simp [hp]
        ring
      · rw [Function.update_apply, if_neg (fun hc => hp hc.symm), ih]
        simp [hp]
end Robotoc

namespace Robotoc

/-- The event loop evaluated: the accumulated error is the sum over the
STO-enabled events, and the running ordinals equal the event counts. -/
theorem kktErrorSqLoop_eval (disc : STODiscretization) (h : ℕ → ℚ) (n : ℕ) :
    STO.kktErrorSqLoop disc h n
      = ((((List.range n).filter (fun e => STO.eventSTOEnabled disc e)).map
            (fun e => (h e - h (e + 1)) * (h e - h (e + 1)))).sum,
         impulseEventsBefore disc n, liftEventsBefore disc n) := by
  induction n with
  | zero => simp [STO.kktErrorSqLoop, impulseEventsBefore, liftEventsBefore]
  | succ n ih =>
      unfold STO.kktErrorSqLoop at ih ⊢
      rw [List.range_succ, List.foldl_append, List.foldl_cons, List.foldl_nil, ih,
        List.filter_append, List.map_append, List.sum_append]
      have hib1 : impulseEventsBefore disc (n + 1)
          = impulseEventsBefore disc n
            + (if disc.eventType n = DiscreteEventType.impulse then 1 else 0) := by
        unfold impulseEventsBefore
        rw [List.range_succ, List.countP_append]
        by_cases hev : disc.eventType n = DiscreteEventType.impulse
        · simp [hev]
        · simp [hev]
      have hlb1 : liftEventsBefore disc (n + 1)
          = liftEventsBefore disc n
            + (if disc.eventType n = DiscreteEventType.impulse then 0 else 1) := by
        unfold liftEventsBefore
        rw [List.range_succ, List.countP_append]
        by_cases hev : disc.eventType n = DiscreteEventType.impulse
        · simp [hev]
        · simp [hev]
      unfold STO.kktErrorStep
      cases hev : disc.eventType n with
      | impulse =>
          dsimp only
          have hen : STO.eventSTOEnabled disc n
              = disc.isSTOEnabledImpulse (impulseEventsBefore disc n) := by
            unfold STO.eventSTOEnabled
            rw [hev]
          rw [hib1, hlb1, if_pos hev, if_pos hev]
          simp only [Prod.mk.injEq]
          refine ⟨?_, by trivial, by trivial⟩
          by_cases hflag : disc.isSTOEnabledImpulse (impulseEventsBefore disc n) = true
          · rw [if_pos hflag]
            simp [hen, hflag]
          · have hflag2 : disc.isSTOEnabledImpulse (impulseEventsBefore disc n) = false :=
              Bool.eq_false_iff.mpr hflag
            rw [if_neg hflag]
            simp [hen, hflag2]
      | liftType =>
          dsimp only
          have hen : STO.eventSTOEnabled disc n
              = disc.isSTOEnabledLift (liftEventsBefore disc n) := by
            unfold STO.eventSTOEnabled
            rw [hev]
          have hne : ¬ disc.eventType n = DiscreteEventType.impulse := by
            rw [hev]
            intro hc
            cases hc
          rw [hib1, hlb1, if_neg hne, if_neg hne]
          simp only [Prod.mk.injEq]
          refine ⟨?_, by trivial, by trivial⟩
          by_cases hflag : disc.isSTOEnabledLift (liftEventsBefore disc n) = true
          · rw [if_pos hflag]
            simp [hen, hflag]
          · have hflag2 : disc.isSTOEnabledLift (liftEventsBefore disc n) = false :=
              Bool.eq_false_iff.mpr hflag
            rw [if_neg hflag]
            simp [hen, hflag2]
      | noneType =>
          dsimp only
          have hen : STO.eventSTOEnabled disc n
              = disc.isSTOEnabledLift (liftEventsBefore disc n) := by
            unfold STO.eventSTOEnabled
            rw [hev]
          have hne : ¬ disc.eventType n = DiscreteEventType.impulse := by
            rw [hev]
            intro hc
            cases hc
          rw [hib1, hlb1, if_neg hne, if_neg hne]
          simp only [Prod.mk.injEq]
          refine ⟨?_, by trivial, by trivial⟩
          by_cases hflag : disc.isSTOEnabledLift (liftEventsBefore disc n) = true
          · rw [if_pos hflag]
            simp [hen, hflag]
          · have hflag2 : disc.isSTOEnabledLift (liftEventsBefore disc n) = false :=
              Bool.eq_false_iff.mpr hflag
            rw [if_neg hflag]
            simp [hen, hflag2]

end Robotoc

namespace Robotoc

/-- The accumulated `h_phase_` array agrees with the claim's phase-wise
Hamiltonian sums. -/
theorem hPhase_eq_spec (disc : STODiscretization) (r : STOKKTResidualH)
    (j : ℕ) :
    STO.hPhase disc r j = STO.hPhaseSpec disc r j := by
  unfold STO.hPhase STO.hPhaseSpec
  simp only [hPhaseAccum_eval]
  ring

end Robotoc

/-- C10: `STO::KKTError(ocp, kkt_residual)` returns the square root of the
sum, over exactly the discrete events whose STO flag is enabled, of the
squared difference `h_phase[e] - h_phase[e+1]`, where `h_phase[p]` sums
the scalar Hamiltonian residuals `h` of the regular, aux and lift stages
of contact phase `p`; when no event has STO enabled the result is `0`. -/
theorem C10_sto_kkt_error (disc : Robotoc.STODiscretization)
    (r : Robotoc.STOKKTResidualH) :
    Robotoc.STO.KKTErrorSq disc r = Robotoc.STO.KKTErrorSqSpec disc r
    ∧ Real.sqrt ((Robotoc.STO.KKTErrorSq disc r : ℚ) : ℝ)
        = Real.sqrt ((Robotoc.STO.KKTErrorSqSpec disc r : ℚ) : ℝ)
    ∧ ((∀ e, e < disc.N_impulse + disc.N_lift →
          Robotoc.STO.eventSTOEnabled disc e = false) →
        Real.sqrt ((Robotoc.STO.KKTErrorSq disc r : ℚ) : ℝ) = 0) := by
  have hq : Robotoc.STO.KKTErrorSq disc r = Robotoc.STO.KKTErrorSqSpec disc r := by
    unfold Robotoc.STO.KKTErrorSq Robotoc.STO.KKTErrorSqSpec
    rw [Robotoc.kktErrorSqLoop_eval]
    simp only [Robotoc.hPhase_eq_spec, pow_two]
  refine ⟨hq, by rw [hq], ?_⟩
  intro hnone
  have hz : Robotoc.STO.KKTErrorSqSpec disc r = 0 := by
    unfold Robotoc.STO.KKTErrorSqSpec
    have hfil : (List.range (disc.N_impulse + disc.N_lift)).filter
        (fun e => Robotoc.STO.eventSTOEnabled disc e) = [] := by
      refine List.filter_eq_nil_iff.mpr ?_
      intro a ha
      rw [hnone a (List.mem_range.mp ha)]
      exact Bool.false_ne_true
    rw [hfil]
    simp
  rw [hq, hz]
  simp

/-- C10 witness: a discretization with one impulse event whose STO flag is
off, so the returned error is zero. -/
theorem C10_sto_kkt_error_witness :
    Real.sqrt ((Robotoc.STO.KKTErrorSq
        { N := 2, N_impulse := 1, N_lift := 0,
          contactPhase := fun _ => 0,
          contactPhaseAfterImpulse := fun _ => 1,
          contactPhaseAfterLift := fun _ => 0,
          eventType := fun _ => Robotoc.DiscreteEventType.impulse,
          isSTOEnabledImpulse := fun _ => false,
          isSTOEnabledLift := fun _ => false }
        { regH := fun i => (i : ℚ) + 1, auxH := fun _ => 5, liftH := fun _ => 0 } : ℚ) : ℝ)
      = 0 :=
  (C10_sto_kkt_error
    { N := 2, N_impulse := 1, N_lift := 0,
      contactPhase := fun _ => 0,
      contactPhaseAfterImpulse := fun _ => 1,
      contactPhaseAfterLift := fun _ => 0,
      eventType := fun _ => Robotoc.DiscreteEventType.impulse,
      isSTOEnabledImpulse := fun _ => false,
      isSTOEnabledLift := fun _ => false }
    { regH := fun i => (i : ℚ) + 1, auxH := fun _ => 5, liftH := fun _ => 0 }).2.2
    (fun _ _ => rfl)

namespace Robotoc

/-! ## Switching constraint (spec §4.3;
`test/ocp/switching_constraint_test.cpp`)

`SwitchingConstraint::evalSwitchingConstraint` and
`::linearizeSwitchingConstraint` themselves are not under `src/`; they are
modelled from the spec sentence (the residual is
`φ_c(q ⊕ (dt_pre+dt_post)·v ⊕ (dt_pre·dt_post)·a)` with the Jacobian
transported through the Lie-group integration) and from the reference
computation the unit test checks the implementation against, which fixes
the `Phiq`/`Phiv`/`Phia` blocks including the fixed-base branch.  The
`Robot` kinematics collaborators (`integrateConfiguration`,
`computeContactPositionResidual`, `computeContactPositionDerivative`,
`dIntegrateTransport_dq/dv`) are abstract functions of the model. -/

/-- `robotoc::ImpulseStatus`: the per-contact impulse activity flags. -/
structure ImpulseStatusModel where
  isImpulseActive : List Bool

/-- `ImpulseStatus::hasActiveImpulse()`. -/
def ImpulseStatusModel.hasActiveImpulse (s : ImpulseStatusModel) : Bool :=
  s.isImpulseActive.any id

/-- Modelled from the spec: the `Robot` collaborator interface consumed by
the switching constraint, over configurations `Fin nq → ℚ` and tangents
`Fin nv → ℚ`; a constraint Jacobian is a list of rows over the tangent
space. -/
structure RobotModel (nq nv : ℕ) where
  hasFloatingBase : Bool
  integrateConfiguration : (Fin nq → ℚ) → (Fin nv → ℚ) → (Fin nq → ℚ)
  contactPositionResidual : ImpulseStatusModel → (Fin nq → ℚ) → List ℚ
  contactPositionDerivative :
    ImpulseStatusModel → (Fin nq → ℚ) → List (Fin nv → ℚ)
  dIntegrateTransport_dq :
    (Fin nq → ℚ) → (Fin nv → ℚ) → List (Fin nv → ℚ) → List (Fin nv → ℚ)
  dIntegrateTransport_dv :
    (Fin nq → ℚ) → (Fin nv → ℚ) → List (Fin nv → ℚ) → List (Fin nv → ℚ)

/-- Row-wise scaling of a Jacobian (`jac.Phiv().array() *= c`). -/
def smulRows {nv : ℕ} (c : ℚ) (M : List (Fin nv → ℚ)) : List (Fin nv → ℚ) :=
  M.map (fun row i => c * row i)

/-- The tangent increment `(dt1+dt2)*s.v + (dt1*dt2)*s.a`. -/
def switchingIncrement {nv : ℕ} (dt1 dt2 : ℚ) (v a : Fin nv → ℚ) :
    Fin nv → ℚ :=
  fun i => (dt1 + dt2) * v i + (dt1 * dt2) * a i

/-- Modelled from the spec:
`SwitchingConstraint::evalSwitchingConstraint(robot, impulse_status, dt1,
dt2, s, res)` sets the residual `P` to the contact-position residual at
the configuration integrated along the increment. -/
def SwitchingConstraint.evalSwitchingConstraint {nq nv : ℕ}
    (robot : RobotModel nq nv) (impulse_status : ImpulseStatusModel)
    (dt1 dt2 : ℚ) (q : Fin nq → ℚ) (v a : Fin nv → ℚ) : List ℚ :=
  robot.contactPositionResidual impulse_status
    (robot.integrateConfiguration q (switchingIncrement dt1 dt2 v a))

/-- The Jacobian blocks produced by
`SwitchingConstraint::linearizeSwitchingConstraint`. -/
structure SwitchingConstraintJacobianOut (nv : ℕ) where
  Pq : List (Fin nv → ℚ)
  Phiq : List (Fin nv → ℚ)
  Phiv : List (Fin nv → ℚ)
  Phia : List (Fin nv → ℚ)

/-- Modelled from the spec and the unit test's reference computation:
`linearizeSwitchingConstraint` recomputes the residual at the integrated
configuration, evaluates the contact-position Jacobian `Pq` there, and
fills `Phiq`, `Phiv`, `Phia`; with a floating base `Pq` is transported
through the Lie-group integration by `dIntegrateTransport_dq/dv` before
the `Phiv`/`Phia` rows are scaled in place by `(dt1+dt2)` and `(dt1*dt2)`,
otherwise the blocks are direct scalar multiples of `Pq`. -/
def SwitchingConstraint.linearizeSwitchingConstraint {nq nv : ℕ}
    (robot : RobotModel nq nv) (impulse_status : ImpulseStatusModel)
    (dt1 dt2 : ℚ) (q : Fin nq → ℚ) (v a : Fin nv → ℚ) :
    List ℚ × SwitchingConstraintJacobianOut nv :=
  let dq := switchingIncrement dt1 dt2 v a
  let q_int := robot.integrateConfiguration q dq
  let P := robot.contactPositionResidual impulse_status q_int
  let Pq := robot.contactPositionDerivative impulse_status q_int
  if robot.hasFloatingBase then
    (P, { Pq := Pq,
          Phiq := robot.dIntegrateTransport_dq q dq Pq,
          Phiv := smulRows (dt1 + dt2) (robot.dIntegrateTransport_dv q dq Pq),
          Phia := smulRows (dt1 * dt2) (robot.dIntegrateTransport_dv q dq Pq) })
  else
    (P, { Pq := Pq,
          Phiq := Pq,
          Phiv := smulRows (dt1 + dt2) Pq,
          Phia := smulRows (dt1 * dt2) Pq })

end Robotoc

/-- C1: for every robot model, impulse status with an active impulse,
split solution `(q, v, a)` and interval widths `dt1, dt2 > 0`,
`evalSwitchingConstraint` sets the residual `P` to the contact-position
residual at `q` integrated along `(dt1+dt2)*v + (dt1*dt2)*a`, and
`linearizeSwitchingConstraint` produces the same residual together with
`Phiq = Pq`, `Phiv = (dt1+dt2)*Pq`, `Phia = (dt1*dt2)*Pq`, where `Pq` is
the contact-position Jacobian at the integrated configuration, transported
through the Lie-group integration by `dIntegrateTransport` when the robot
has a floating base. -/
theorem C1_switching_constraint {nq nv : ℕ} (robot : Robotoc.RobotModel nq nv)
    (impulse_status : Robotoc.ImpulseStatusModel) (dt1 dt2 : ℚ)
    (q : Fin nq → ℚ) (v a : Fin nv → ℚ)
    (_hact : impulse_status.hasActiveImpulse = true)
    (_hdt1 : 0 < dt1) (_hdt2 : 0 < dt2) :
    (Robotoc.SwitchingConstraint.evalSwitchingConstraint robot impulse_status
        dt1 dt2 q v a
      = robot.contactPositionResidual impulse_status
          (robot.integrateConfiguration q
            (fun i => (dt1 + dt2) * v i + (dt1 * dt2) * a i)))
    ∧ ((Robotoc.SwitchingConstraint.linearizeSwitchingConstraint robot
          impulse_status dt1 dt2 q v a).1
      = Robotoc.SwitchingConstraint.evalSwitchingConstraint robot
          impulse_status dt1 dt2 q v a)
    ∧ ((Robotoc.SwitchingConstraint.linearizeSwitchingConstraint robot
          impulse_status dt1 dt2 q v a).2.Pq
      = robot.contactPositionDerivative impulse_status
          (robot.integrateConfiguration q
            (Robotoc.switchingIncrement dt1 dt2 v a)))
    ∧ (robot.hasFloatingBase = true →
        ((Robotoc.SwitchingConstraint.linearizeSwitchingConstraint robot
            impulse_status dt1 dt2 q v a).2.Phiq
          = robot.dIntegrateTransport_dq q
              (Robotoc.switchingIncrement dt1 dt2 v a)
              (Robotoc.SwitchingConstraint.linearizeSwitchingConstraint robot
                impulse_status dt1 dt2 q v a).2.Pq
        ∧ (Robotoc.SwitchingConstraint.linearizeSwitchingConstraint robot
            impulse_status dt1 dt2 q v a).2.Phiv
          = Robotoc.smulRows (dt1 + dt2)
              (robot.dIntegrateTransport_dv q
                (Robotoc.switchingIncrement dt1 dt2 v a)
                (Robotoc.SwitchingConstraint.linearizeSwitchingConstraint robot
                  impulse_status dt1 dt2 q v a).2.Pq)
        ∧ (Robotoc.SwitchingConstraint.linearizeSwitchingConstraint robot
            impulse_status dt1 dt2 q v a).2.Phia
          = Robotoc.smulRows (dt1 * dt2)
              (robot.dIntegrateTransport_dv q
                (Robotoc.switchingIncrement dt1 dt2 v a)
                (Robotoc.SwitchingConstraint.linearizeSwitchingConstraint robot
                  impulse_status dt1 dt2 q v a).2.Pq)))
    ∧ (robot.hasFloatingBase = false →
        ((Robotoc.SwitchingConstraint.linearizeSwitchingConstraint robot
            impulse_status dt1 dt2 q v a).2.Phiq
          = (Robotoc.SwitchingConstraint.linearizeSwitchingConstraint robot
              impulse_status dt1 dt2 q v a).2.Pq
        ∧ (Robotoc.SwitchingConstraint.linearizeSwitchingConstraint robot
            impulse_status dt1 dt2 q v a).2.Phiv
          = Robotoc.smulRows (dt1 + dt2)
              (Robotoc.SwitchingConstraint.linearizeSwitchingConstraint robot
                impulse_status dt1 dt2 q v a).2.Pq
        ∧ (Robotoc.SwitchingConstraint.linearizeSwitchingConstraint robot
            impulse_status dt1 dt2 q v a).2.Phia
          = Robotoc.smulRows (dt1 * dt2)
              (Robotoc.SwitchingConstraint.linearizeSwitchingConstraint robot
                impulse_status dt1 dt2 q v a).2.Pq)) := by
  unfold Robotoc.SwitchingConstraint.linearizeSwitchingConstraint
    Robotoc.SwitchingConstraint.evalSwitchingConstraint
    Robotoc.switchingIncrement
  by_cases hfb : robot.hasFloatingBase = true
  · rw [if_pos hfb]
    refine ⟨rfl, rfl, rfl, fun _ => ⟨rfl, rfl, rfl⟩, fun hc => ?_⟩
    rw [hfb] at hc
    exact absurd hc (by decide)
  · have hfb2 : robot.hasFloatingBase = false := Bool.eq_false_iff.mpr hfb
    rw [if_neg hfb]
    refine ⟨rfl, rfl, rfl, fun hc => ?_, fun _ => ⟨rfl, rfl, rfl⟩⟩
    rw [hfb2] at hc
    exact absurd hc (by decide)

/-- C1 witness: the theorem at a one-degree-of-freedom fixed-base robot
whose integration is scalar addition, with one active impulse and
`dt1 = dt2 = 1`. -/
theorem C1_switching_constraint_witness :
    (Robotoc.SwitchingConstraint.evalSwitchingConstraint
        ({ hasFloatingBase := false,
           integrateConfiguration := fun q dq i => q i + dq i,
           contactPositionResidual := fun _ q => [q 0],
           contactPositionDerivative := fun _ q => [fun _ => q 0],
           dIntegrateTransport_dq := fun _ _ M => M,
           dIntegrateTransport_dv := fun _ _ M => M } : Robotoc.RobotModel 1 1)
        { isImpulseActive := [true] } 1 1
        (fun _ => (2 : ℚ)) (fun _ => 3) (fun _ => 4)
      = ({ hasFloatingBase := false,
           integrateConfiguration := fun q dq i => q i + dq i,
           contactPositionResidual := fun _ q => [q 0],
           contactPositionDerivative := fun _ q => [fun _ => q 0],
           dIntegrateTransport_dq := fun _ _ M => M,
           dIntegrateTransport_dv := fun _ _ M => M } :
            Robotoc.RobotModel 1 1).contactPositionResidual
          { isImpulseActive := [true] }
          (({ hasFloatingBase := false,
              integrateConfiguration := fun q dq i => q i + dq i,
              contactPositionResidual := fun _ q => [q 0],
              contactPositionDerivative := fun _ q => [fun _ => q 0],
              dIntegrateTransport_dq := fun _ _ M => M,
              dIntegrateTransport_dv := fun _ _ M => M } :
                Robotoc.RobotModel 1 1).integrateConfiguration
            (fun _ => 2)
            (fun i => ((1 : ℚ) + 1) * (fun _ => (3 : ℚ)) i
              + ((1 : ℚ) * 1) * (fun _ => (4 : ℚ)) i))) :=
  (C1_switching_constraint
    ({ hasFloatingBase := false,
       integrateConfiguration := fun q dq i => q i + dq i,
       contactPositionResidual := fun _ q => [q 0],
       contactPositionDerivative := fun _ q => [fun _ => q 0],
       dIntegrateTransport_dq := fun _ _ M => M,
       dIntegrateTransport_dv := fun _ _ M => M } : Robotoc.RobotModel 1 1)
    { isImpulseActive := [true] } 1 1
    (fun _ => 2) (fun _ => 3) (fun _ => 4)
    rfl (by norm_num) (by norm_num)).1
